import Mathlib

/-!
# Game of Life (`Game_of_Life.cpp`): embedding and verified properties

The program keeps its whole state in global variables that two GLUT callbacks
(`GenerateBoard`, the display callback, and `mouse_click`) read and write.  The
embedding passes these globals around as an explicit `State` record.

Modelling conventions.

* The C++ `int` is modelled by `Int`.  `main` only lets grid dimensions `≤ 100`
  through, so on a grid every index `i*m + j` is below `10^4`, far from the
  32-bit range.  The product `n*m` of the third prompt loop is computed from
  any two numbers that passed the first two loops; there the embedding tracks
  overflow, which is undefined behaviour on `int`.
* `/` on `int` truncates towards zero: `Int.tdiv`.  Division by zero is
  undefined behaviour.
* `vector::operator[]` outside `[0, size)` is undefined behaviour.
* Every function that can run into undefined behaviour returns an `Option`;
  `none` means "the C++ program has no defined behaviour here".
* `cin` is the list of integers typed in, with its `failbit`: `cin >> variable`
  at the end of the input or with `failbit` set stores nothing, and a typed
  integer outside the range of `int` is stored clamped and sets `failbit`.
* `cout` is modelled by a log of structured messages kept in the state.
* The OpenGL calls only paint the window; what is kept of the drawing code are
  its reads of the engine state (`drawBoard`).
-/

namespace GameOfLife

/-! ## Data model -/

/-- The class `Cell` (lines 67-78): coordinates and the alive flag. -/
structure Cell where
  xCoord : Int
  yCoord : Int
  alive : Bool
deriving DecidableEq

/-- The three messages the engine prints on `cout` after the prompts:
`remaining k` is line 232 (cells that remain to be clicked), `extinct c` is
line 188 (the game ended at cycle `c` with no alive cells), `maxCycles c a` is
line 191 (the game ended at cycle `c` with `a` alive cells). -/
inductive Output where
  | remaining (k : Int)
  | extinct (cycles : Int)
  | maxCycles (cycles : Int) (alive : Int)
deriving DecidableEq

/-- The global variables of lines 81-90, and the console log. -/
structure State where
  w : Int
  h : Int
  n : Int
  m : Int
  max_cycles : Int
  current_cycles : Int
  starting_alive : Int
  number_alive_clicked : Int
  Cells : List Cell
  end_game : Bool
  cout : List Output
deriving DecidableEq

/-! ## Vector access and loops -/

/-- Reading `v[k]`: defined only for `0 ≤ k < v.size()`. -/
def readAt {α : Type} (v : List α) (k : Int) : Option α :=
  if 0 ≤ k then v[k.toNat]? else none

/-- Writing `v[k] = a`: defined only for `0 ≤ k < v.size()`. -/
def writeAt {α : Type} (v : List α) (k : Int) (a : α) : Option (List α) :=
  if 0 ≤ k ∧ k.toNat < v.length then some (v.set k.toNat a) else none

/-- The values of `i` in `for (int i = 0; i < bound; ++i)`. -/
def upto (bound : Int) : List Int :=
  (List.range bound.toNat).map Int.ofNat

/-- The values of `(i, j)`, in order of execution, of the nested loops
`for (i = 0; i < n; ++i) for (j = 0; j < m; ++j)`. -/
def gridLoop (n m : Int) : List (Int × Int) :=
  (upto n).flatMap fun i => (upto m).map fun j => (i, j)

/-- The values of `i` in `for (int i = c - 1; i <= c + 1; i++)`. -/
def sweep (c : Int) : List Int :=
  [c - 1, c, c + 1]

/-- The values of `(i, j)`, in order of execution, of the two loops of
`Cell::getState` (lines 109-110). -/
def sweepLoop (xCoord yCoord : Int) : List (Int × Int) :=
  (sweep xCoord).flatMap fun i => (sweep yCoord).map fun j => (i, j)

/-! ## `Cell::getState` and `Cell::update` -/

/-- One execution of the body of the inner loop of `Cell::getState`
(lines 111-117) on the counter `live_neighbours`. -/
def countStep (n m : Int) (Cells : List Cell) (xCoord yCoord : Int)
    (live_neighbours : Int) (p : Int × Int) : Option Int :=
  if p.1 ≠ xCoord ∨ p.2 ≠ yCoord then
    if 0 ≤ p.1 ∧ p.1 < n ∧ 0 ≤ p.2 ∧ p.2 < m then
      match readAt Cells (p.1 * m + p.2) with
      | none => none
      | some c => if c.alive then some (live_neighbours + 1) else some live_neighbours
    else some live_neighbours
  else some live_neighbours

/-- The value of `live_neighbours` after the loops of `Cell::getState`
(lines 108-119). -/
def liveNeighbours (n m : Int) (Cells : List Cell) (xCoord yCoord : Int) : Option Int :=
  (sweepLoop xCoord yCoord).foldlM (countStep n m Cells xCoord yCoord) 0

/-- The method `Cell::getState` (lines 107-126); `n`, `m` and `Cells` are the globals. -/
def getState (n m : Int) (Cells : List Cell) (xCoord yCoord : Int) (alive : Bool) :
    Option Bool :=
  match liveNeighbours n m Cells xCoord yCoord with
  | none => none
  | some live_neighbours =>
    if alive then
      some (decide (live_neighbours ≥ 2 ∧ live_neighbours ≤ 3))
    else
      some (decide (live_neighbours = 3))

/-- The method `Cell::update` (lines 98-102): the argument with its `alive` recomputed. -/
def update (n m : Int) (Cells : List Cell) (cell_to_update : Cell) : Option Cell :=
  match getState n m Cells cell_to_update.xCoord cell_to_update.yCoord cell_to_update.alive with
  | none => none
  | some b => some { cell_to_update with alive := b }

/-! ## `GenerateBoard` -/

/-- The reads of the drawing part of `GenerateBoard` (lines 150-170): the
square sizes `w/n` and `h/m`, then `Cells[current]` for the running counter
`current` of the nested loops.  The result is the final value of `current`. -/
def drawBoard (s : State) : Option Int :=
  if s.n = 0 ∨ s.m = 0 then none
  else
    (gridLoop s.n s.m).foldlM
      (fun current _ => (readAt s.Cells current).map fun _ => current + 1) 0

/-- The counting loop of lines 180-185. -/
def countAlive (Cells : List Cell) : Int :=
  Cells.foldl (fun alive c => if c.alive then alive + 1 else alive) 0

/-- The first pair of loops of the generation step (lines 195-199): the
updated cells are pushed onto `vector_of_survival`. -/
def survivalLoop (n m : Int) (Cells : List Cell) : Option (List Cell) :=
  (gridLoop n m).foldlM
    (fun vector_of_survival p =>
      match readAt Cells (p.1 * m + p.2) with
      | none => none
      | some c =>
        match update n m Cells c with
        | none => none
        | some c' => some (vector_of_survival ++ [c']))
    []

/-- The second pair of loops (lines 200-204): `vector_of_survival` is copied
back into `Cells`, cell by cell. -/
def copyLoop (n m : Int) (vector_of_survival Cells : List Cell) : Option (List Cell) :=
  (gridLoop n m).foldlM
    (fun cells p =>
      match readAt vector_of_survival (p.1 * m + p.2) with
      | none => none
      | some c => writeAt cells (p.1 * m + p.2) c)
    Cells

/-- The engine part of `GenerateBoard` (lines 175-216), run after drawing. -/
def tick (s : State) : Option State :=
  if s.starting_alive = s.number_alive_clicked ∧ s.end_game = false then
    let alive := countAlive s.Cells
    if alive = 0 then
      some { s with end_game := true, cout := s.cout ++ [Output.extinct s.current_cycles] }
    else if s.max_cycles ≠ 0 ∧ s.current_cycles = s.max_cycles then
      some { s with end_game := true,
                    cout := s.cout ++ [Output.maxCycles s.current_cycles alive] }
    else
      match survivalLoop s.n s.m s.Cells with
      | none => none
      | some vector_of_survival =>
        match copyLoop s.n s.m vector_of_survival s.Cells with
        | none => none
        | some cells =>
          some { s with Cells := cells, current_cycles := s.current_cycles + 1 }
  else some s

/-- The display callback `GenerateBoard` (lines 143-217).  `win_h` and `win_w` are what
`glutGet(GLUT_WINDOW_HEIGHT)` and `glutGet(GLUT_WINDOW_WIDTH)` return. -/
def GenerateBoard (win_h win_w : Int) (s : State) : Option State :=
  let s1 := { s with h := win_h, w := win_w }
  match drawBoard s1 with
  | none => none
  | some _ => tick s1

/-- Successive calls of `GenerateBoard`, one for each window size
`(win_h, win_w)` of the list. -/
def ticks : List (Int × Int) → State → Option State
  | [], s => some s
  | win :: rest, s =>
    match GenerateBoard win.1 win.2 s with
    | none => none
    | some s1 => ticks rest s1

/-! ## `mouse_click` -/

/-- The value of `GLUT_LEFT_BUTTON` in `GL/glut.h`. -/
def GLUT_LEFT_BUTTON : Int := 0

/-- The value of `GLUT_DOWN` in `GL/glut.h`. -/
def GLUT_DOWN : Int := 0

/-- The index `(x*n/w) * m + (h-y)*m/(h)` of line 229. -/
def clickIndex (s : State) (x y : Int) : Int :=
  (x * s.n).tdiv s.w * s.m + ((s.h - y) * s.m).tdiv s.h

/-- The mouse callback `mouse_click` (lines 223-238). -/
def mouse_click (button state x y : Int) (s : State) : Option State :=
  if button = GLUT_LEFT_BUTTON ∧ state = GLUT_DOWN ∧
      s.starting_alive > s.number_alive_clicked then
    if x ≤ s.w ∧ s.h - y ≤ s.h then
      if s.w = 0 ∨ s.h = 0 then none
      else
        match readAt s.Cells (clickIndex s x y) with
        | none => none
        | some c =>
          if c.alive = false then
            match writeAt s.Cells (clickIndex s x y) { c with alive := true } with
            | none => none
            | some cells =>
              some { s with
                Cells := cells,
                number_alive_clicked := s.number_alive_clicked + 1,
                cout := s.cout ++
                  [Output.remaining (s.starting_alive - (s.number_alive_clicked + 1))] }
          else some s
    else some s
  else some s

/-! ## `main`: the prompts and the construction of the grid -/

/-- The value fits the 32-bit `int`. -/
def fitsInt (v : Int) : Prop :=
  -2147483648 ≤ v ∧ v ≤ 2147483647

instance (v : Int) : Decidable (fitsInt v) :=
  inferInstanceAs (Decidable (-2147483648 ≤ v ∧ v ≤ 2147483647))

/-- What `cin >> variable` stores for a typed integer outside the range of
`int` (C++11): the nearest end of the range. -/
def clampInt (v : Int) : Int :=
  if v < -2147483648 then -2147483648
  else if v > 2147483647 then 2147483647
  else v

/-- The stream `cin`: the integers typed in and not yet read, and `failbit`.
Once `failbit` is set, no `cin >> variable` reads or stores anything. -/
structure Cin where
  input : List Int
  failbit : Bool
deriving DecidableEq

/-- The loop of lines 254-257.  A read at the end of the input, or with
`failbit` set, leaves `n` as it is, so that the loop never ends: `none`.  A
typed integer outside the range of `int` is stored clamped and sets
`failbit`. -/
def promptWidth (n : Int) (failbit : Bool) : List Int → Option (Int × Cin)
  | [] => if n > 100 then none else some (n, { input := [], failbit := failbit })
  | v :: rest =>
    if n > 100 then
      if failbit then none
      else if fitsInt v then promptWidth v false rest
      else promptWidth (clampInt v) true rest
    else some (n, { input := v :: rest, failbit := failbit })

/-- The loop of lines 259-262. -/
def promptHeight (m : Int) (failbit : Bool) : List Int → Option (Int × Cin)
  | [] => if m > 100 then none else some (m, { input := [], failbit := failbit })
  | v :: rest =>
    if m > 100 then
      if failbit then none
      else if fitsInt v then promptHeight v false rest
      else promptHeight (clampInt v) true rest
    else some (m, { input := v :: rest, failbit := failbit })

/-- The loop of lines 264-267.  Every way through it computes `n*m`, in the
condition or in the prompt of the body, and `n` and `m` are any two numbers
that passed the first two loops: an overflowing product is undefined. -/
def promptStartingAlive (n m : Int) (starting_alive : Int) (failbit : Bool) :
    List Int → Option (Int × Cin)
  | [] =>
    if ¬ fitsInt (n * m) then none
    else if starting_alive = 0 ∨ starting_alive > n * m then none
    else some (starting_alive, { input := [], failbit := failbit })
  | v :: rest =>
    if ¬ fitsInt (n * m) then none
    else if starting_alive = 0 ∨ starting_alive > n * m then
      if failbit then none
      else if fitsInt v then promptStartingAlive n m v false rest
      else promptStartingAlive n m (clampInt v) true rest
    else some (starting_alive, { input := v :: rest, failbit := failbit })

/-- The single read of line 270. -/
def promptMaxCycles (max_cycles : Int) (failbit : Bool) : List Int → Int × Cin
  | [] => (max_cycles, { input := [], failbit := true })
  | v :: rest =>
    if failbit then (max_cycles, { input := v :: rest, failbit := true })
    else if fitsInt v then (v, { input := rest, failbit := false })
    else (clampInt v, { input := rest, failbit := true })

/-- The construction loops of lines 275-284. -/
def buildCells (n m : Int) : List Cell :=
  (gridLoop n m).foldl
    (fun cells p => cells ++ [{ xCoord := p.1, yCoord := p.2, alive := false }]) []

/-- The configuration part of `main` (lines 254-284) from the globals'
initial values (lines 81-90), given the integers typed in.  The result is the
state in which the GLUT loop starts, and the stream as the prompts leave
it. -/
def configure (input : List Int) : Option (State × Cin) :=
  match promptWidth 101 false input with
  | none => none
  | some (n, cin1) =>
    match promptHeight 101 cin1.failbit cin1.input with
    | none => none
    | some (m, cin2) =>
      match promptStartingAlive n m 0 cin2.failbit cin2.input with
      | none => none
      | some (starting_alive, cin3) =>
        match promptMaxCycles 0 cin3.failbit cin3.input with
        | (max_cycles, cin4) =>
          some ({ w := 900, h := 900, n := n, m := m, max_cycles := max_cycles,
                  current_cycles := 0, starting_alive := starting_alive,
                  number_alive_clicked := 0, Cells := buildCells n m,
                  end_game := false, cout := [] }, cin4)

/-- The four numbers, typed in this order and nothing else, take the program
out of the prompts as its width, height, number of starting alive cells and
maximum number of cycles: none of them is asked for again, and all the input
is read. -/
def accepts (width height target cycles : Int) : Bool :=
  match configure [width, height, target, cycles] with
  | none => false
  | some (s, cin) =>
    decide (s.n = width ∧ s.m = height ∧ s.starting_alive = target ∧
      s.max_cycles = cycles ∧ cin.input = [])

/-! ## The rule in the words of the specification -/

/-- The coordinates a cell carries. -/
def coords (c : Cell) : Int × Int :=
  (c.xCoord, c.yCoord)

/-- Cell `(x, y)` of an `n × m` grid stored at index `x*m + y` is alive; a
position outside `[0,n) × [0,m)` holds no live cell. -/
def aliveAt (n m : Int) (Cells : List Cell) (x y : Int) : Bool :=
  decide (0 ≤ x ∧ x < n ∧ 0 ≤ y ∧ y < m) &&
    ((readAt Cells (x * m + y)).map Cell.alive == some true)

/-- The eight offsets `(dx, dy)`, `dx, dy ∈ {-1, 0, 1}`, `(dx, dy) ≠ (0, 0)`. -/
def offsets : List (Int × Int) :=
  [(-1, -1), (-1, 0), (-1, 1), (0, -1), (0, 1), (1, -1), (1, 0), (1, 1)]

/-- Number of live neighbours of `(x, y)`: the live cells among the eight at
`(x + dx, y + dy)`, without wraparound. -/
def conwayCount (n m : Int) (Cells : List Cell) (x y : Int) : Nat :=
  offsets.countP fun d => aliveAt n m Cells (x + d.1) (y + d.2)

/-- Conway's rule: a live cell survives with 2 or 3 live neighbours, a dead
cell is born with exactly 3. -/
def conwayRule (alive : Bool) (k : Nat) : Bool :=
  if alive then k == 2 || k == 3 else k == 3

/-- The state of cell `(x, y)` after one synchronous step of the grid. -/
def conwayAlive (n m : Int) (Cells : List Cell) (x y : Int) : Bool :=
  conwayRule (aliveAt n m Cells x y) (conwayCount n m Cells x y)

/-- The synchronous step of the whole grid, every cell computed from the
grid before the step. -/
def conwayStep (n m : Int) (Cells : List Cell) : List Cell :=
  (gridLoop n m).map fun p =>
    { xCoord := p.1, yCoord := p.2, alive := conwayAlive n m Cells p.1 p.2 }

/-- Generation `k` of a grid. -/
def generation (n m : Int) (Cells : List Cell) : Nat → List Cell
  | 0 => Cells
  | k + 1 => conwayStep n m (generation n m Cells k)

/-! ## Layout of the vector, inspected positions, concrete grids -/

/-- The vector holds `n*m` cells and the cell at index `x*m + y` carries the
coordinates `(x, y)`. -/
def Stored (n m : Int) (Cells : List Cell) : Prop :=
  Cells.length = (n * m).toNat ∧
    ∀ x y : Int, 0 ≤ x → x < n → 0 ≤ y → y < m →
      (readAt Cells (x * m + y)).map coords = some (x, y)

/-- The neighbour positions that pass both guards of `Cell::getState`
(lines 111-112), in the order in which the loops visit them. -/
def inspected (n m xCoord yCoord : Int) : List (Int × Int) :=
  (sweepLoop xCoord yCoord).filter fun p =>
    decide (p.1 ≠ xCoord ∨ p.2 ≠ yCoord) &&
      decide (0 ≤ p.1 ∧ p.1 < n ∧ 0 ≤ p.2 ∧ p.2 < m)

/-- The `n × m` grid, as `main` lays it out, whose live cells are exactly
those of the list `live`. -/
def gridWith (n m : Int) (live : List (Int × Int)) : List Cell :=
  (gridLoop n m).map fun p => { xCoord := p.1, yCoord := p.2, alive := decide (p ∈ live) }

/-! ## Concrete states -/

/-- A running 5 × 5 game holding the horizontal blinker, no cycle limit. -/
def blinkerState : State :=
  { w := 900, h := 900, n := 5, m := 5, max_cycles := 0, current_cycles := 0,
    starting_alive := 3, number_alive_clicked := 3,
    Cells := gridWith 5 5 [(1, 2), (2, 2), (3, 2)], end_game := false, cout := [] }

/-- The blinker game with the cycle limit 5. -/
def limitedState : State :=
  { blinkerState with max_cycles := 5 }

/-- A 3 × 3 game in the running phase, at cycle 0, with all cells dead. -/
def deadState : State :=
  { w := 900, h := 900, n := 3, m := 3, max_cycles := 5, current_cycles := 0,
    starting_alive := 1, number_alive_clicked := 1, Cells := buildCells 3 3,
    end_game := false, cout := [] }

/-- The blinker game after it has ended at cycle 5. -/
def endedState : State :=
  { limitedState with current_cycles := 5, end_game := true,
                      Cells := gridWith 5 5 [(2, 1), (2, 2), (2, 3)],
                      cout := [Output.maxCycles 5 3] }

/-- The state in which `main` leaves a 3 × 3 game with one cell to place. -/
def placingState : State :=
  { w := 900, h := 900, n := 3, m := 3, max_cycles := 0, current_cycles := 0,
    starting_alive := 1, number_alive_clicked := 0, Cells := buildCells 3 3,
    end_game := false, cout := [] }

/-! # Lemmas -/

theorem mem_upto (b i : Int) : i ∈ upto b ↔ 0 ≤ i ∧ i < b := by
  unfold upto
  simp only [List.mem_map, List.mem_range]
  constructor
  · rintro ⟨k, hk, rfl⟩
    simp only [Int.ofNat_eq_coe]
    omega
  · rintro ⟨h0, h1⟩
    refine ⟨i.toNat, by omega, ?_⟩
    simp only [Int.ofNat_eq_coe]
    omega

theorem mem_gridLoop (n m : Int) (p : Int × Int) :
    p ∈ gridLoop n m ↔ (0 ≤ p.1 ∧ p.1 < n) ∧ (0 ≤ p.2 ∧ p.2 < m) := by
  unfold gridLoop
  simp only [List.mem_flatMap, List.mem_map, mem_upto]
  constructor
  · rintro ⟨i, hi, j, hj, rfl⟩
    exact ⟨hi, hj⟩
  · rintro ⟨hi, hj⟩
    exact ⟨p.1, hi, p.2, hj, rfl⟩

theorem index_bounds {n m x y : Int} (hx0 : 0 ≤ x) (hxn : x < n) (hy0 : 0 ≤ y) (hym : y < m) :
    0 ≤ x * m + y ∧ x * m + y < n * m := by
  have hm : 0 ≤ m := by omega
  have h1 : 0 ≤ x * m := Int.mul_nonneg hx0 hm
  have h2 : (x + 1) * m ≤ n * m := Int.mul_le_mul_of_nonneg_right (by omega) hm
  have h3 : (x + 1) * m = x * m + m := by ring
  omega

/-- The loop positions, listed by vector index. -/
theorem gridLoop_eq_range (n m : Int) :
    gridLoop n m = (List.range (n.toNat * m.toNat)).map
      fun k => (((k / m.toNat : Nat) : Int), ((k % m.toNat : Nat) : Int)) := by
  unfold gridLoop upto
  generalize n.toNat = N
  generalize m.toNat = M
  induction N with
  | zero => simp
  | succ N ih =>
    rw [List.range_succ, List.map_append, List.flatMap_append, ih, Nat.succ_mul,
      List.range_add, List.map_append]
    congr 1
    simp only [List.map_cons, List.map_nil, List.flatMap_cons, List.flatMap_nil,
      List.append_nil, List.map_map]
    apply List.map_congr_left
    intro j hj
    have hj' : j < M := List.mem_range.mp hj
    have hM : 0 < M := by omega
    simp only [Function.comp, Int.ofNat_eq_coe]
    have h1 : (N * M + j) / M = N := by
      rw [Nat.mul_comm, Nat.mul_add_div hM, Nat.div_eq_of_lt hj']; simp
    have h2 : (N * M + j) % M = j := by
      rw [Nat.mul_comm, Nat.mul_add_mod, Nat.mod_eq_of_lt hj']
    rw [h1, h2]

theorem length_gridLoop (n m : Int) : (gridLoop n m).length = n.toNat * m.toNat := by
  rw [gridLoop_eq_range]; simp

theorem readAt_gridLoop {n m x y : Int} (hx0 : 0 ≤ x) (hxn : x < n) (hy0 : 0 ≤ y) (hym : y < m) :
    readAt (gridLoop n m) (x * m + y) = some (x, y) := by
  obtain ⟨h0, h1⟩ := index_bounds hx0 hxn hy0 hym
  unfold readAt
  rw [if_pos h0, gridLoop_eq_range]
  obtain ⟨X, rfl⟩ := Int.eq_ofNat_of_zero_le hx0
  obtain ⟨Y, rfl⟩ := Int.eq_ofNat_of_zero_le hy0
  obtain ⟨N, rfl⟩ := Int.eq_ofNat_of_zero_le (show 0 ≤ n by omega)
  obtain ⟨M, rfl⟩ := Int.eq_ofNat_of_zero_le (show 0 ≤ m by omega)
  have hXN : X < N := by omega
  have hYM : Y < M := by omega
  have hk : ((X : Int) * (M : Int) + (Y : Int)).toNat = X * M + Y := by
    rw [show ((X : Int) * (M : Int) + (Y : Int)) = ((X * M + Y : Nat) : Int) by push_cast; rfl]
    exact Int.toNat_ofNat _
  have hlt : X * M + Y < N * M := by
    have : (X + 1) * M ≤ N * M := Nat.mul_le_mul_right M hXN
    have h3 : (X + 1) * M = X * M + M := by ring
    omega
  rw [hk]
  simp only [Int.toNat_ofNat, List.getElem?_map, List.getElem?_range hlt, Option.map_some']
  have hM : 0 < M := by omega
  have h1 : (X * M + Y) / M = X := by
    rw [Nat.mul_comm, Nat.mul_add_div hM, Nat.div_eq_of_lt hYM]; simp
  have h2 : (X * M + Y) % M = Y := by
    rw [Nat.mul_comm, Nat.mul_add_mod, Nat.mod_eq_of_lt hYM]
  rw [h1, h2]


/-! ## The stored-coordinates invariant -/

theorem toNat_mul_toNat {n m : Int} (hn : 0 ≤ n) (hm : 0 ≤ m) :
    (n * m).toNat = n.toNat * m.toNat := by
  obtain ⟨N, rfl⟩ := Int.eq_ofNat_of_zero_le hn
  obtain ⟨M, rfl⟩ := Int.eq_ofNat_of_zero_le hm
  rw [← Nat.cast_mul]
  exact Int.toNat_ofNat _

theorem cast_div_mod (k M : Nat) :
    ((k / M : Nat) : Int) * (M : Int) + ((k % M : Nat) : Int) = (k : Int) := by
  have h2 : ((M * (k / M) + k % M : Nat) : Int) = (k : Int) := by rw [Nat.div_add_mod k M]
  rw [← h2]
  push_cast
  ring

theorem stored_iff {n m : Int} {Cells : List Cell} (hn : 0 ≤ n) (hm : 0 ≤ m) :
    Stored n m Cells ↔ Cells.map coords = gridLoop n m := by
  have hnm := toNat_mul_toNat hn hm
  constructor
  · rintro ⟨hlen, hxy⟩
    apply List.ext_getElem?
    intro k
    rw [gridLoop_eq_range]
    by_cases hk : k < n.toNat * m.toNat
    · have hM : 0 < m.toNat := by
        rcases Nat.eq_zero_or_pos m.toNat with h | h
        · rw [h] at hk; simp at hk
        · exact h
      have hq : k / m.toNat < n.toNat := by
        rw [Nat.div_lt_iff_lt_mul hM]; exact hk
      have hr : k % m.toNat < m.toNat := Nat.mod_lt _ hM
      have hm' : ((m.toNat : Nat) : Int) = m := Int.toNat_of_nonneg hm
      have hn' : ((n.toNat : Nat) : Int) = n := Int.toNat_of_nonneg hn
      have hq' : ((k / m.toNat : Nat) : Int) < n := by
        rw [← hn']; exact_mod_cast hq
      have hr' : ((k % m.toNat : Nat) : Int) < m := by
        rw [← hm']; exact_mod_cast hr
      have h := hxy ((k / m.toNat : Nat) : Int) ((k % m.toNat : Nat) : Int)
        (Int.ofNat_zero_le _) hq' (Int.ofNat_zero_le _) hr'
      have hidx : (((k / m.toNat : Nat) : Int) * m + ((k % m.toNat : Nat) : Int)) = (k : Int) := by
        conv_lhs => rw [← hm']
        exact cast_div_mod k m.toNat
      rw [hidx] at h
      unfold readAt at h
      simp only [Int.ofNat_zero_le, if_true, Int.toNat_ofNat] at h
      rw [List.getElem?_map, h]
      simp [List.getElem?_range hk]
    · have h1 : (List.map coords Cells).length ≤ k := by
        rw [List.length_map, hlen, hnm]
        omega
      rw [List.getElem?_eq_none h1, List.getElem?_eq_none (by simpa using hk)]
  · intro h
    constructor
    · have := congrArg List.length h
      rw [List.length_map, length_gridLoop] at this
      rw [this, hnm]
    · intro x y hx0 hxn hy0 hym
      have := readAt_gridLoop hx0 hxn hy0 hym
      rw [← h] at this
      unfold readAt at this ⊢
      split at this
      · rw [List.getElem?_map] at this
        rw [if_pos (by assumption)]
        exact this
      · exact absurd this (by simp)

theorem Stored.read {n m : Int} {Cells : List Cell} (h : Stored n m Cells) {x y : Int}
    (hx0 : 0 ≤ x) (hxn : x < n) (hy0 : 0 ≤ y) (hym : y < m) :
    ∃ a, readAt Cells (x * m + y) = some { xCoord := x, yCoord := y, alive := a } := by
  have := h.2 x y hx0 hxn hy0 hym
  cases hc : readAt Cells (x * m + y) with
  | none => rw [hc] at this; simp at this
  | some c =>
    rw [hc] at this
    simp only [Option.map_some', Option.some.injEq, coords, Prod.mk.injEq] at this
    obtain ⟨xc, yc, a⟩ := c
    simp only at this
    obtain ⟨rfl, rfl⟩ := this
    exact ⟨a, rfl⟩

theorem stored_conwayStep {n m : Int} (hn : 0 ≤ n) (hm : 0 ≤ m) (Cells : List Cell) :
    Stored n m (conwayStep n m Cells) := by
  rw [stored_iff hn hm]
  unfold conwayStep
  rw [List.map_map]
  conv_rhs => rw [← List.map_id (gridLoop n m)]
  apply List.map_congr_left
  intro p _
  rfl

/-! ## `Cell::getState` computes the neighbour count of the rule -/

theorem readAt_of_length {n m : Int} {Cells : List Cell} (hlen : Cells.length = (n * m).toNat)
    {x y : Int} (hx0 : 0 ≤ x) (hxn : x < n) (hy0 : 0 ≤ y) (hym : y < m) :
    ∃ c, readAt Cells (x * m + y) = some c := by
  obtain ⟨h0, h1⟩ := index_bounds hx0 hxn hy0 hym
  have hlt : (x * m + y).toNat < Cells.length := by omega
  refine ⟨Cells[(x * m + y).toNat], ?_⟩
  unfold readAt
  rw [if_pos h0, List.getElem?_eq_getElem hlt]

theorem foldlM_add {α : Type} (f : Int → α → Option Int) (g : α → Int)
    (l : List α) (hf : ∀ p ∈ l, ∀ acc, f acc p = some (acc + g p)) (acc : Int) :
    l.foldlM f acc = some (acc + (l.map g).sum) := by
  induction l generalizing acc with
  | nil => simp
  | cons p l ih =>
    rw [List.foldlM_cons, hf p (List.mem_cons_self _ _) acc]
    simp only [Option.bind_eq_bind, Option.some_bind, List.map_cons, List.sum_cons]
    rw [ih (fun q hq => hf q (List.mem_cons_of_mem _ hq))]
    congr 1
    ring

theorem countStep_eq {n m : Int} {Cells : List Cell} (hlen : Cells.length = (n * m).toNat)
    (x y acc : Int) (p : Int × Int) :
    countStep n m Cells x y acc p =
      some (acc + if (p.1 ≠ x ∨ p.2 ≠ y) ∧ aliveAt n m Cells p.1 p.2 = true then 1 else 0) := by
  unfold countStep aliveAt
  by_cases h1 : p.1 ≠ x ∨ p.2 ≠ y
  · by_cases h2 : 0 ≤ p.1 ∧ p.1 < n ∧ 0 ≤ p.2 ∧ p.2 < m
    · obtain ⟨c, hc⟩ := readAt_of_length hlen h2.1 h2.2.1 h2.2.2.1 h2.2.2.2
      rw [if_pos h1, if_pos h2, hc]
      cases hca : c.alive <;> simp [h1, h2, hca]
    · rw [if_pos h1, if_neg h2]
      simp [h2]
  · rw [if_neg h1]
    simp [h1]

theorem liveNeighbours_eq {n m : Int} {Cells : List Cell} (hlen : Cells.length = (n * m).toNat)
    (x y : Int) :
    liveNeighbours n m Cells x y = some ((conwayCount n m Cells x y : Nat) : Int) := by
  unfold liveNeighbours
  rw [foldlM_add _ _ _ (fun p _ acc => countStep_eq hlen x y acc p)]
  simp only [sweepLoop, sweep, conwayCount, offsets, List.flatMap_cons, List.flatMap_nil,
    List.map_cons, List.map_nil, List.cons_append, List.nil_append, List.append_nil,
    List.sum_cons, List.sum_nil, List.countP_cons, List.countP_nil]
  have e1 : x + -1 = x - 1 := by ring
  have e2 : y + -1 = y - 1 := by ring
  simp only [e1, e2, add_zero, zero_add]
  have c1 : x - 1 ≠ x := by omega
  have c2 : x + 1 ≠ x := by omega
  have c3 : y - 1 ≠ y := by omega
  have c4 : y + 1 ≠ y := by omega
  simp only [c1, c2, c3, c4, ne_eq, not_true_eq_false, not_false_eq_true, true_or, or_true,
    or_self, true_and, false_and, if_false]
  push_cast
  ring_nf

theorem getState_eq {n m : Int} {Cells : List Cell} (hlen : Cells.length = (n * m).toNat)
    (x y : Int) (alive : Bool) :
    getState n m Cells x y alive = some (conwayRule alive (conwayCount n m Cells x y)) := by
  unfold getState
  rw [liveNeighbours_eq hlen]
  simp only [conwayRule]
  cases alive
  · simp only [Bool.false_eq_true, if_false, Option.some.injEq]
    rw [Bool.eq_iff_iff]
    simp only [decide_eq_true_eq, beq_iff_eq]
    omega
  · simp only [if_true, Option.some.injEq]
    rw [Bool.eq_iff_iff]
    simp only [decide_eq_true_eq, Bool.or_eq_true, beq_iff_eq]
    omega

/-! ## The loops of `GenerateBoard` -/

theorem countAlive_eq (Cells : List Cell) :
    countAlive Cells = ((Cells.countP fun c => c.alive : Nat) : Int) := by
  unfold countAlive
  have key : ∀ (l : List Cell) (acc : Int),
      l.foldl (fun alive c => if c.alive then alive + 1 else alive) acc =
        acc + ((l.countP fun c => c.alive : Nat) : Int) := by
    intro l
    induction l with
    | nil => intro acc; simp
    | cons c l ih =>
      intro acc
      rw [List.foldl_cons, ih, List.countP_cons]
      cases c.alive <;> simp
      ring
  rw [key]
  simp

theorem countAlive_eq_zero_iff (Cells : List Cell) :
    countAlive Cells = 0 ↔ ∀ c ∈ Cells, c.alive = false := by
  rw [countAlive_eq]
  simp only [Nat.cast_eq_zero, List.countP_eq_zero]
  constructor
  · intro h c hc
    have := h c hc
    simpa using this
  · intro h c hc
    simp [h c hc]

theorem drawLoop_eq {α : Type} (Cells : List Cell) (l : List α) (current : Nat)
    (h : current + l.length ≤ Cells.length) :
    l.foldlM (fun (cur : Int) _ => (readAt Cells cur).map fun _ => cur + 1) (current : Int) =
      some ((current + l.length : Nat) : Int) := by
  induction l generalizing current with
  | nil => simp
  | cons a l ih =>
    simp only [List.length_cons] at h
    have hlt : current < Cells.length := by omega
    rw [List.foldlM_cons]
    have hr : readAt Cells (current : Int) = some Cells[current] := by
      unfold readAt
      rw [if_pos (Int.ofNat_zero_le _), Int.toNat_ofNat, List.getElem?_eq_getElem hlt]
    rw [hr]
    simp only [Option.map_some', Option.bind_eq_bind, Option.some_bind]
    have := ih (current + 1) (by omega)
    rw [show ((current : Int) + 1) = ((current + 1 : Nat) : Int) by push_cast; rfl, this]
    simp only [List.length_cons]
    congr 2
    omega

theorem drawBoard_eq {s : State} (hn : 1 ≤ s.n) (hm : 1 ≤ s.m)
    (hlen : s.Cells.length = (s.n * s.m).toNat) :
    drawBoard s = some (s.n * s.m) := by
  unfold drawBoard
  rw [if_neg (by omega)]
  have h0 : (0 : Int) = ((0 : Nat) : Int) := rfl
  have hnm := toNat_mul_toNat (show 0 ≤ s.n by omega) (show 0 ≤ s.m by omega)
  rw [h0, drawLoop_eq s.Cells (gridLoop s.n s.m) 0
    (by rw [length_gridLoop, hlen, hnm]; omega)]
  rw [length_gridLoop, ← hnm, Nat.zero_add]
  have : 0 ≤ s.n * s.m := Int.mul_nonneg (by omega) (by omega)
  rw [Int.toNat_of_nonneg this]

theorem foldlM_push {α β : Type} (f : List β → α → Option (List β)) (g : α → β)
    (l : List α) (hf : ∀ p ∈ l, ∀ acc, f acc p = some (acc ++ [g p])) (acc : List β) :
    l.foldlM f acc = some (acc ++ l.map g) := by
  induction l generalizing acc with
  | nil => simp
  | cons p l ih =>
    rw [List.foldlM_cons, hf p (List.mem_cons_self _ _) acc]
    simp only [Option.bind_eq_bind, Option.some_bind, List.map_cons]
    rw [ih (fun q hq => hf q (List.mem_cons_of_mem _ hq))]
    simp

theorem aliveAt_of_read {n m : Int} {Cells : List Cell} {x y : Int} {c : Cell}
    (hx0 : 0 ≤ x) (hxn : x < n) (hy0 : 0 ≤ y) (hym : y < m)
    (hc : readAt Cells (x * m + y) = some c) : aliveAt n m Cells x y = c.alive := by
  unfold aliveAt
  rw [hc]
  have : (0 ≤ x ∧ x < n ∧ 0 ≤ y ∧ y < m) := ⟨hx0, hxn, hy0, hym⟩
  cases hca : c.alive <;> simp [this, hca]

theorem survivalLoop_eq {n m : Int} {Cells : List Cell} (h : Stored n m Cells) :
    survivalLoop n m Cells = some (conwayStep n m Cells) := by
  unfold survivalLoop conwayStep
  rw [foldlM_push _ (fun p : Int × Int =>
    ({ xCoord := p.1, yCoord := p.2, alive := conwayAlive n m Cells p.1 p.2 } : Cell))]
  · simp
  · intro p hp acc
    rw [mem_gridLoop] at hp
    obtain ⟨⟨hx0, hxn⟩, hy0, hym⟩ := hp
    obtain ⟨a, ha⟩ := h.read hx0 hxn hy0 hym
    have hal := aliveAt_of_read hx0 hxn hy0 hym ha
    simp only at hal
    simp only [ha, update, getState_eq h.1, conwayAlive, hal]

theorem copyRange_eq {α : Type} (v cells : List α) (hlen : v.length = cells.length)
    (f : List α → Nat → Option (List α))
    (hf : ∀ (cs : List α) (k : Nat) (hk : k < v.length), k < cs.length →
      f cs k = some (cs.set k v[k]))
    (K : Nat) (hK : K ≤ v.length) :
    (List.range K).foldlM f cells = some (v.take K ++ cells.drop K) := by
  induction K with
  | zero => simp
  | succ K ih =>
    rw [List.range_succ, List.foldlM_append, ih (by omega)]
    simp only [Option.bind_eq_bind, Option.some_bind, List.foldlM_cons, List.foldlM_nil]
    have hlt : K < v.length := by omega
    have hl : (List.take K v ++ List.drop K cells).length = cells.length := by
      simp only [List.length_append, List.length_take, List.length_drop]
      omega
    rw [hf _ K hlt (by rw [hl]; omega)]
    simp only [Option.some_bind, Option.pure_def, Option.bind_some]
    congr 1
    apply List.ext_getElem?
    intro j
    rw [List.getElem?_set, hl]
    simp only [List.getElem?_append, List.length_take, List.getElem?_take, List.getElem?_drop]
    have hmin : min K v.length = K := by omega
    have hmin1 : min (K + 1) v.length = K + 1 := by omega
    rw [hmin, hmin1]
    by_cases hj : K = j
    · subst hj
      simp only [if_true]
      rw [if_pos (by omega), if_pos (by omega), if_pos (by omega)]
      exact (List.getElem?_eq_getElem hlt).symm
    · rw [if_neg hj]
      by_cases hj2 : j < K
      · rw [if_pos hj2, if_pos hj2, if_pos (by omega), if_pos (by omega)]
      · rw [if_neg hj2, if_neg (by omega)]
        congr 1
        omega

theorem copyLoop_eq {n m : Int} (hn : 0 ≤ n) (hm : 0 ≤ m) {v Cells : List Cell}
    (hv : v.length = (n * m).toNat) (hc : Cells.length = (n * m).toNat) :
    copyLoop n m v Cells = some v := by
  unfold copyLoop
  rw [gridLoop_eq_range, List.foldlM_map]
  have hm' : ((m.toNat : Nat) : Int) = m := Int.toNat_of_nonneg hm
  have key := copyRange_eq v Cells (by rw [hv, hc])
    (fun (cells : List Cell) (k : Nat) =>
      match readAt v (((k / m.toNat : Nat) : Int) * m + ((k % m.toNat : Nat) : Int)) with
      | none => none
      | some c => writeAt cells (((k / m.toNat : Nat) : Int) * m + ((k % m.toNat : Nat) : Int)) c)
    (by
      intro cs k hk hk2
      have : ((k / m.toNat : Nat) : Int) * m + ((k % m.toNat : Nat) : Int) = (k : Int) := by
        conv_lhs => rw [← hm']
        exact cast_div_mod k m.toNat
      simp only [this]
      unfold readAt writeAt
      rw [if_pos (Int.ofNat_zero_le _), Int.toNat_ofNat, List.getElem?_eq_getElem hk]
      simp only
      rw [if_pos ⟨Int.ofNat_zero_le _, hk2⟩])
    (n.toNat * m.toNat) (by rw [hv, toNat_mul_toNat hn hm])
  rw [← toNat_mul_toNat hn hm, ← hv, List.take_length, List.drop_of_length_le (by omega),
    List.append_nil] at key
  rw [← toNat_mul_toNat hn hm, ← hv]
  exact key

/-! ## The four ways through `GenerateBoard` -/

theorem length_conwayStep {n m : Int} (hn : 0 ≤ n) (hm : 0 ≤ m) (Cells : List Cell) :
    (conwayStep n m Cells).length = (n * m).toNat :=
  (stored_conwayStep hn hm Cells).1

/-- Outside the running phase, or once the game has ended, only the window
size is stored. -/
theorem GenerateBoard_idle {s : State} (win_h win_w : Int) (hn : 1 ≤ s.n) (hm : 1 ≤ s.m)
    (hlen : s.Cells.length = (s.n * s.m).toNat)
    (hidle : ¬ (s.starting_alive = s.number_alive_clicked ∧ s.end_game = false)) :
    GenerateBoard win_h win_w s = some { s with h := win_h, w := win_w } := by
  unfold GenerateBoard
  simp only
  rw [drawBoard_eq (s := { s with h := win_h, w := win_w }) hn hm hlen]
  simp only [tick]
  rw [if_neg hidle]

/-- In the running phase a grid without live cells ends the game. -/
theorem GenerateBoard_extinct {s : State} (win_h win_w : Int) (hn : 1 ≤ s.n) (hm : 1 ≤ s.m)
    (hlen : s.Cells.length = (s.n * s.m).toNat)
    (hrun : s.starting_alive = s.number_alive_clicked) (hend : s.end_game = false)
    (hdead : ∀ c ∈ s.Cells, c.alive = false) :
    GenerateBoard win_h win_w s =
      some { s with h := win_h, w := win_w, end_game := true,
                    cout := s.cout ++ [Output.extinct s.current_cycles] } := by
  unfold GenerateBoard
  simp only
  rw [drawBoard_eq (s := { s with h := win_h, w := win_w }) hn hm hlen]
  simp only [tick]
  rw [if_pos ⟨hrun, hend⟩, if_pos ((countAlive_eq_zero_iff _).mpr hdead)]

/-- In the running phase, with a live cell, the cycle limit ends the game. -/
theorem GenerateBoard_limit {s : State} (win_h win_w : Int) (hn : 1 ≤ s.n) (hm : 1 ≤ s.m)
    (hlen : s.Cells.length = (s.n * s.m).toNat)
    (hrun : s.starting_alive = s.number_alive_clicked) (hend : s.end_game = false)
    (hlive : ∃ c ∈ s.Cells, c.alive = true)
    (hlim : s.max_cycles ≠ 0 ∧ s.current_cycles = s.max_cycles) :
    GenerateBoard win_h win_w s =
      some { s with h := win_h, w := win_w, end_game := true,
                    cout := s.cout ++
                      [Output.maxCycles s.current_cycles (countAlive s.Cells)] } := by
  unfold GenerateBoard
  simp only
  rw [drawBoard_eq (s := { s with h := win_h, w := win_w }) hn hm hlen]
  simp only [tick]
  have hne : ¬ countAlive s.Cells = 0 := by
    rw [countAlive_eq_zero_iff]
    intro h
    obtain ⟨c, hc, hca⟩ := hlive
    rw [h c hc] at hca
    exact absurd hca (by decide)
  rw [if_pos ⟨hrun, hend⟩, if_neg hne, if_pos hlim]

/-- In the running phase, with a live cell and below the cycle limit, the
grid is replaced by its synchronous step. -/
theorem GenerateBoard_step {s : State} (win_h win_w : Int) (hn : 1 ≤ s.n) (hm : 1 ≤ s.m)
    (hst : Stored s.n s.m s.Cells)
    (hrun : s.starting_alive = s.number_alive_clicked) (hend : s.end_game = false)
    (hlive : ∃ c ∈ s.Cells, c.alive = true)
    (hlim : ¬ (s.max_cycles ≠ 0 ∧ s.current_cycles = s.max_cycles)) :
    GenerateBoard win_h win_w s =
      some { s with h := win_h, w := win_w, Cells := conwayStep s.n s.m s.Cells,
                    current_cycles := s.current_cycles + 1 } := by
  unfold GenerateBoard
  simp only
  rw [drawBoard_eq (s := { s with h := win_h, w := win_w }) hn hm hst.1]
  simp only [tick]
  have hne : ¬ countAlive s.Cells = 0 := by
    rw [countAlive_eq_zero_iff]
    intro h
    obtain ⟨c, hc, hca⟩ := hlive
    rw [h c hc] at hca
    exact absurd hca (by decide)
  rw [if_pos ⟨hrun, hend⟩, if_neg hne, if_neg hlim, survivalLoop_eq hst]
  simp only
  rw [copyLoop_eq (by omega) (by omega) (length_conwayStep (by omega) (by omega) _) hst.1]

/-- Whatever the phase, a call of `GenerateBoard` on a well-stored grid is
defined and leaves a well-stored grid of the same dimensions. -/
theorem GenerateBoard_stored {s : State} (win_h win_w : Int) (hn : 1 ≤ s.n) (hm : 1 ≤ s.m)
    (hst : Stored s.n s.m s.Cells) :
    ∃ s1, GenerateBoard win_h win_w s = some s1 ∧ s1.n = s.n ∧ s1.m = s.m ∧
      Stored s.n s.m s1.Cells := by
  by_cases hrun : s.starting_alive = s.number_alive_clicked ∧ s.end_game = false
  · by_cases hdead : ∀ c ∈ s.Cells, c.alive = false
    · exact ⟨_, GenerateBoard_extinct win_h win_w hn hm hst.1 hrun.1 hrun.2 hdead,
        rfl, rfl, hst⟩
    · have hlive : ∃ c ∈ s.Cells, c.alive = true := by
        by_contra hno
        apply hdead
        intro c hc
        cases hca : c.alive
        · rfl
        · exact absurd ⟨c, hc, hca⟩ hno
      by_cases hlim : s.max_cycles ≠ 0 ∧ s.current_cycles = s.max_cycles
      · exact ⟨_, GenerateBoard_limit win_h win_w hn hm hst.1 hrun.1 hrun.2 hlive hlim,
          rfl, rfl, hst⟩
      · exact ⟨_, GenerateBoard_step win_h win_w hn hm hst hrun.1 hrun.2 hlive hlim,
          rfl, rfl, stored_conwayStep (by omega) (by omega) _⟩
  · exact ⟨_, GenerateBoard_idle win_h win_w hn hm hst.1 hrun, rfl, rfl, hst⟩

/-! ## Reading the grid after a step -/

theorem readAt_map {α β : Type} (f : α → β) (l : List α) (k : Int) :
    readAt (l.map f) k = (readAt l k).map f := by
  unfold readAt
  split
  · rw [List.getElem?_map]
  · rfl

theorem aliveAt_conwayStep {n m : Int} (Cells : List Cell) {x y : Int}
    (hx0 : 0 ≤ x) (hxn : x < n) (hy0 : 0 ≤ y) (hym : y < m) :
    aliveAt n m (conwayStep n m Cells) x y = conwayAlive n m Cells x y := by
  have hr : readAt (conwayStep n m Cells) (x * m + y) =
      some { xCoord := x, yCoord := y, alive := conwayAlive n m Cells x y } := by
    unfold conwayStep
    rw [readAt_map, readAt_gridLoop hx0 hxn hy0 hym]
    rfl
  exact aliveAt_of_read hx0 hxn hy0 hym hr

theorem conwayAlive_iff (n m : Int) (Cells : List Cell) (x y : Int) :
    conwayAlive n m Cells x y = true ↔
      (aliveAt n m Cells x y = true ∧
          (conwayCount n m Cells x y = 2 ∨ conwayCount n m Cells x y = 3)) ∨
        (aliveAt n m Cells x y = false ∧ conwayCount n m Cells x y = 3) := by
  unfold conwayAlive conwayRule
  cases aliveAt n m Cells x y <;> simp

/-! ## Sequences of calls -/

/-- Once `end_game` is set, calls of `GenerateBoard` only store the window
size. -/
theorem ticks_ended (wins : List (Int × Int)) (s : State) (hn : 1 ≤ s.n) (hm : 1 ≤ s.m)
    (hlen : s.Cells.length = (s.n * s.m).toNat) (hend : s.end_game = true) :
    ∃ s1, ticks wins s = some s1 ∧ s1.n = s.n ∧ s1.m = s.m ∧
      s1.max_cycles = s.max_cycles ∧ s1.current_cycles = s.current_cycles ∧
      s1.starting_alive = s.starting_alive ∧
      s1.number_alive_clicked = s.number_alive_clicked ∧ s1.Cells = s.Cells ∧
      s1.end_game = true ∧ s1.cout = s.cout := by
  induction wins generalizing s with
  | nil => exact ⟨s, rfl, rfl, rfl, rfl, rfl, rfl, rfl, rfl, hend, rfl⟩
  | cons win rest ih =>
    have h1 := GenerateBoard_idle (s := s) win.1 win.2 hn hm hlen
      (by rw [hend]; simp)
    obtain ⟨s1, h, e1, e2, e3, e4, e5, e6, e7, e8, e9⟩ :=
      ih { s with h := win.1, w := win.2 } hn hm hlen hend
    refine ⟨s1, ?_, e1, e2, e3, e4, e5, e6, e7, e8, e9⟩
    simp only [ticks, h1]
    exact h

/-- The run of a game with cycle limit `k` whose generations up to `k` all
have a live cell, from the state reached after `j ≤ k` generations. -/
theorem ticks_run (n m : Int) (hn : 1 ≤ n) (hm : 1 ≤ m) (C0 : List Cell) (k : Nat)
    (hk : 1 ≤ k) (hlive : ∀ i ≤ k, ∃ c ∈ generation n m C0 i, c.alive = true)
    (wins : List (Int × Int)) (s : State) (j : Nat) (hj : j ≤ k)
    (hsn : s.n = n) (hsm : s.m = m) (hcells : s.Cells = generation n m C0 j)
    (hst : Stored n m s.Cells) (hcyc : s.current_cycles = j) (hmax : s.max_cycles = k)
    (hrun : s.starting_alive = s.number_alive_clicked) (hend : s.end_game = false) :
    ∃ st, ticks wins s = some st ∧
      (j + wins.length ≤ k →
        st.Cells = generation n m C0 (j + wins.length) ∧
          st.current_cycles = ((j + wins.length : Nat) : Int) ∧ st.end_game = false ∧
          st.cout = s.cout) ∧
      (k < j + wins.length →
        st.Cells = generation n m C0 k ∧ st.current_cycles = (k : Int) ∧
          st.end_game = true ∧
          st.cout = s.cout ++ [Output.maxCycles (k : Int)
            (((generation n m C0 k).countP fun c => c.alive : Nat) : Int)]) := by
  induction wins generalizing s j with
  | nil =>
    refine ⟨s, rfl, ?_, ?_⟩
    · intro _
      exact ⟨hcells, by simpa using hcyc, hend, rfl⟩
    · intro h
      simp only [List.length_nil, Nat.add_zero] at h
      omega
  | cons win rest ih =>
    have hl : ∃ c ∈ s.Cells, c.alive = true := by rw [hcells]; exact hlive j hj
    by_cases hjk : j = k
    · have hlim : s.max_cycles ≠ 0 ∧ s.current_cycles = s.max_cycles := by
        rw [hmax, hcyc, hjk]
        exact ⟨by exact_mod_cast (by omega : k ≠ 0), rfl⟩
      have h1 := GenerateBoard_limit (s := s) win.1 win.2 (by omega) (by omega)
        (by rw [hsn, hsm]; exact hst.1) hrun hend hl hlim
      obtain ⟨st, h, -, -, -, e4, -, -, e7, e8, e9⟩ :=
        ticks_ended rest
          { s with h := win.1, w := win.2, end_game := true,
                   cout := s.cout ++ [Output.maxCycles s.current_cycles (countAlive s.Cells)] }
          (by simp only; omega) (by simp only; omega)
          (by simp only; rw [hsn, hsm]; exact hst.1) rfl
      refine ⟨st, ?_, ?_, ?_⟩
      · simp only [ticks, h1]
        exact h
      · intro hle
        simp only [List.length_cons] at hle
        omega
      · intro _
        simp only at e4 e7 e9
        refine ⟨by rw [e7, hcells, hjk], by rw [e4, hcyc, hjk], e8, ?_⟩
        rw [e9, hcyc, hcells, countAlive_eq, hjk]
    · have hlim : ¬ (s.max_cycles ≠ 0 ∧ s.current_cycles = s.max_cycles) := by
        rw [hmax, hcyc]
        rintro ⟨-, h⟩
        exact hjk (by exact_mod_cast h)
      have h1 := GenerateBoard_step (s := s) win.1 win.2 (by omega) (by omega)
        (by rw [hsn, hsm]; exact hst) hrun hend hl hlim
      obtain ⟨st, h, a1, a2⟩ :=
        ih { s with h := win.1, w := win.2, Cells := conwayStep s.n s.m s.Cells,
                    current_cycles := s.current_cycles + 1 }
          (j + 1) (by omega) hsn hsm
          (by simp only; rw [hsn, hsm, hcells]; rfl)
          (by simp only; rw [hsn, hsm]; exact stored_conwayStep (by omega) (by omega) _)
          (by simp only; rw [hcyc]; push_cast; rfl) hmax hrun hend
      refine ⟨st, ?_, ?_, ?_⟩
      · simp only [ticks, h1]
        exact h
      · intro hle
        simp only [List.length_cons] at hle
        have := a1 (by omega)
        rw [show j + 1 + rest.length = j + (rest.length + 1) by omega] at this
        exact this
      · intro hlt
        simp only [List.length_cons] at hlt
        exact a2 (by omega)

theorem buildCells_eq (n m : Int) :
    buildCells n m = (gridLoop n m).map fun p => { xCoord := p.1, yCoord := p.2, alive := false } := by
  unfold buildCells
  have key : ∀ (l : List (Int × Int)) (acc : List Cell),
      l.foldl (fun cells p => cells ++ [({ xCoord := p.1, yCoord := p.2, alive := false } : Cell)])
        acc = acc ++ l.map fun p => { xCoord := p.1, yCoord := p.2, alive := false } := by
    intro l
    induction l with
    | nil => intro acc; simp
    | cons p l ih => intro acc; rw [List.foldl_cons, ih]; simp
  rw [key]
  simp

theorem stored_buildCells {n m : Int} (hn : 0 ≤ n) (hm : 0 ≤ m) : Stored n m (buildCells n m) := by
  rw [stored_iff hn hm, buildCells_eq, List.map_map]
  conv_rhs => rw [← List.map_id (gridLoop n m)]
  apply List.map_congr_left
  intro p _
  rfl

/-- On a well-stored grid, the cell found at index `k` carries the coordinates
of `k`. -/
theorem Stored.index {n m : Int} {Cells : List Cell} (h : Stored n m Cells) (hn : 0 ≤ n)
    (hm : 0 ≤ m) {k : Int} {c : Cell} (hc : readAt Cells k = some c) :
    c.xCoord * m + c.yCoord = k ∧ 0 ≤ c.xCoord ∧ c.xCoord < n ∧ 0 ≤ c.yCoord ∧ c.yCoord < m := by
  have hmap := (stored_iff hn hm).mp h
  have hr : readAt (Cells.map coords) k = some (coords c) := by rw [readAt_map, hc]; rfl
  rw [hmap, gridLoop_eq_range] at hr
  unfold readAt at hr
  split at hr
  · rename_i hk0
    rw [List.getElem?_map] at hr
    cases hg : (List.range (n.toNat * m.toNat))[k.toNat]? with
    | none => rw [hg] at hr; simp at hr
    | some i =>
      rw [hg] at hr
      have hi := List.getElem?_eq_some_iff.mp hg
      obtain ⟨hlt, hi⟩ := hi
      rw [List.getElem_range] at hi
      rw [List.length_range] at hlt
      subst hi
      simp only [Option.map_some', Option.some.injEq, coords, Prod.mk.injEq] at hr
      obtain ⟨hx, hy⟩ := hr
      have hM : 0 < m.toNat := by
        rcases Nat.eq_zero_or_pos m.toNat with h0 | h0
        · rw [h0] at hlt; simp at hlt
        · exact h0
      have hq : k.toNat / m.toNat < n.toNat := by
        rw [Nat.div_lt_iff_lt_mul hM]; exact hlt
      have hr2 : k.toNat % m.toNat < m.toNat := Nat.mod_lt _ hM
      have hm' : ((m.toNat : Nat) : Int) = m := Int.toNat_of_nonneg hm
      have hn' : ((n.toNat : Nat) : Int) = n := Int.toNat_of_nonneg hn
      have hk' : ((k.toNat : Nat) : Int) = k := Int.toNat_of_nonneg hk0
      have hidx := cast_div_mod k.toNat m.toNat
      rw [hm', hk'] at hidx
      rw [← hx, ← hy]
      refine ⟨hidx, Int.ofNat_zero_le _, ?_, Int.ofNat_zero_le _, ?_⟩
      · rw [← hn']; exact_mod_cast hq
      · rw [← hm']; exact_mod_cast hr2
  · simp at hr

theorem ticks_stored (wins : List (Int × Int)) (s : State) (hn : 1 ≤ s.n) (hm : 1 ≤ s.m)
    (hst : Stored s.n s.m s.Cells) :
    ∃ s1, ticks wins s = some s1 ∧ s1.n = s.n ∧ s1.m = s.m ∧ Stored s.n s.m s1.Cells := by
  induction wins generalizing s with
  | nil => exact ⟨s, rfl, rfl, rfl, hst⟩
  | cons win rest ih =>
    obtain ⟨s1, h1, e1, e2, hst1⟩ := GenerateBoard_stored (s := s) win.1 win.2 hn hm hst
    obtain ⟨s2, h2, f1, f2, hst2⟩ := ih s1 (by omega) (by omega) (by rw [e1, e2]; exact hst1)
    refine ⟨s2, ?_, by omega, by omega, by rw [e1, e2] at hst2; exact hst2⟩
    simp only [ticks, h1]
    exact h2

/-! ## Neighbour positions -/

theorem mem_of_readAt {α : Type} {v : List α} {k : Int} {a : α} (h : readAt v k = some a) :
    a ∈ v := by
  unfold readAt at h
  split at h
  · obtain ⟨hlt, rfl⟩ := List.getElem?_eq_some_iff.mp h
    exact List.getElem_mem _
  · simp at h

theorem aliveAt_all_alive {n m : Int} {Cells : List Cell}
    (hlen : Cells.length = (n * m).toNat) (hall : ∀ c ∈ Cells, c.alive = true) (x y : Int) :
    aliveAt n m Cells x y = decide (0 ≤ x ∧ x < n ∧ 0 ≤ y ∧ y < m) := by
  by_cases hb : 0 ≤ x ∧ x < n ∧ 0 ≤ y ∧ y < m
  · obtain ⟨c, hc⟩ := readAt_of_length hlen hb.1 hb.2.1 hb.2.2.1 hb.2.2.2
    rw [aliveAt_of_read hb.1 hb.2.1 hb.2.2.1 hb.2.2.2 hc, hall c (mem_of_readAt hc)]
    simp [hb]
  · unfold aliveAt
    simp [hb]

theorem sum_indicator {α : Type} (q : α → Bool) (l : List α) :
    (l.map fun p => if q p = true then (1 : Int) else 0).sum = ((l.filter q).length : Int) := by
  induction l with
  | nil => simp
  | cons a l ih =>
    rw [List.map_cons, List.sum_cons, ih, List.filter_cons]
    cases q a <;> simp
    ring

/-- On a grid whose cells are all alive, `Cell::getState` counts exactly the
positions that pass its two guards. -/
theorem liveNeighbours_all_alive {n m : Int} {Cells : List Cell}
    (hlen : Cells.length = (n * m).toNat) (hall : ∀ c ∈ Cells, c.alive = true) (x y : Int) :
    liveNeighbours n m Cells x y = some ((inspected n m x y).length : Int) := by
  unfold liveNeighbours
  rw [foldlM_add _ _ _ (fun p _ acc => countStep_eq hlen x y acc p)]
  unfold inspected
  rw [← sum_indicator, zero_add]
  congr 2
  apply List.map_congr_left
  intro p _
  rw [aliveAt_all_alive hlen hall]
  simp only [Bool.and_eq_true, decide_eq_true_eq]

/-- The number of inspected positions around an in-grid cell: the rows in
range times the columns in range, less the cell itself. -/
theorem length_inspected (n m x y : Int) (hx0 : 0 ≤ x) (hxn : x < n) (hy0 : 0 ≤ y)
    (hym : y < m) :
    ((inspected n m x y).length : Int) =
      ((if 0 ≤ x - 1 then (1 : Int) else 0) + 1 + (if x + 1 < n then (1 : Int) else 0)) *
        ((if 0 ≤ y - 1 then (1 : Int) else 0) + 1 + (if y + 1 < m then (1 : Int) else 0)) - 1 := by
  unfold inspected
  rw [← List.countP_eq_length_filter]
  simp only [sweepLoop, sweep, List.flatMap_cons, List.flatMap_nil, List.map_cons, List.map_nil,
    List.cons_append, List.nil_append, List.append_nil, List.countP_cons, List.countP_nil,
    Bool.and_eq_true, decide_eq_true_eq]
  have a1 : x - 1 < n := by omega
  have a2 : 0 ≤ x + 1 := by omega
  have a3 : y - 1 < m := by omega
  have a4 : 0 ≤ y + 1 := by omega
  have c1 : x - 1 ≠ x := by omega
  have c2 : x + 1 ≠ x := by omega
  have c3 : y - 1 ≠ y := by omega
  have c4 : y + 1 ≠ y := by omega
  by_cases b1 : 0 ≤ x - 1 <;> by_cases b2 : x + 1 < n <;> by_cases b3 : 0 ≤ y - 1 <;>
    by_cases b4 : y + 1 < m <;>
    simp only [hx0, hxn, hy0, hym, a1, a2, a3, a4, c1, c2, c3, c4, b1, b2, b3, b4, ne_eq,
      not_true_eq_false, not_false_eq_true, true_or, or_true, or_self, true_and, and_true,
      false_and, and_false, and_self, if_true, if_false] <;>
    rfl

theorem inspected_corner (n m : Int) (hn : 2 ≤ n) (hm : 2 ≤ m) :
    (inspected n m 0 0).length = 3 := by
  have h := length_inspected n m 0 0 (by omega) (by omega) (by omega) (by omega)
  have b1 : ¬ (0 : Int) ≤ 0 - 1 := by omega
  have b2 : (0 : Int) + 1 < n := by omega
  have b4 : (0 : Int) + 1 < m := by omega
  simp only [b1, b2, b4, if_true, if_false] at h
  omega

theorem inspected_border (n m x y : Int) (hn : 2 ≤ n) (hm : 2 ≤ m) (hx0 : 0 ≤ x) (hxn : x < n)
    (hy0 : 0 ≤ y) (hym : y < m) (hborder : x = 0 ∨ x = n - 1 ∨ y = 0 ∨ y = m - 1)
    (hcorner : ¬ ((x = 0 ∨ x = n - 1) ∧ (y = 0 ∨ y = m - 1))) :
    (inspected n m x y).length = 5 := by
  have h := length_inspected n m x y hx0 hxn hy0 hym
  have : ((inspected n m x y).length : Int) = 5 := by
    rw [h]
    by_cases b1 : 0 ≤ x - 1 <;> by_cases b2 : x + 1 < n <;> by_cases b3 : 0 ≤ y - 1 <;>
      by_cases b4 : y + 1 < m <;>
      simp only [b1, b2, b3, b4, if_true, if_false] <;>
      omega
  exact_mod_cast this

/-! ## The prompts -/

theorem promptWidth_some {n n1 : Int} {failbit : Bool} {input : List Int} {cin : Cin}
    (h : promptWidth n failbit input = some (n1, cin)) : n1 ≤ 100 := by
  induction input generalizing n failbit with
  | nil =>
    unfold promptWidth at h
    split at h
    · exact absurd h (by simp)
    · simp only [Option.some.injEq, Prod.mk.injEq] at h
      omega
  | cons v tail ih =>
    unfold promptWidth at h
    split at h
    · split at h
      · exact absurd h (by simp)
      · split at h
        · exact ih h
        · exact ih h
    · simp only [Option.some.injEq, Prod.mk.injEq] at h
      omega

theorem promptHeight_some {m m1 : Int} {failbit : Bool} {input : List Int} {cin : Cin}
    (h : promptHeight m failbit input = some (m1, cin)) : m1 ≤ 100 := by
  induction input generalizing m failbit with
  | nil =>
    unfold promptHeight at h
    split at h
    · exact absurd h (by simp)
    · simp only [Option.some.injEq, Prod.mk.injEq] at h
      omega
  | cons v tail ih =>
    unfold promptHeight at h
    split at h
    · split at h
      · exact absurd h (by simp)
      · split at h
        · exact ih h
        · exact ih h
    · simp only [Option.some.injEq, Prod.mk.injEq] at h
      omega

theorem promptStartingAlive_some {n m a a1 : Int} {failbit : Bool} {input : List Int}
    {cin : Cin} (h : promptStartingAlive n m a failbit input = some (a1, cin)) :
    a1 ≠ 0 ∧ a1 ≤ n * m ∧ fitsInt (n * m) := by
  induction input generalizing a failbit with
  | nil =>
    unfold promptStartingAlive at h
    split at h
    · exact absurd h (by simp)
    · split at h
      · exact absurd h (by simp)
      · rename_i hfit hcond
        simp only [Option.some.injEq, Prod.mk.injEq] at h
        obtain ⟨rfl, -⟩ := h
        exact ⟨fun h0 => hcond (Or.inl h0), by omega, not_not.mp hfit⟩
  | cons v tail ih =>
    unfold promptStartingAlive at h
    split at h
    · exact absurd h (by simp)
    · split at h
      · split at h
        · exact absurd h (by simp)
        · split at h
          · exact ih h
          · exact ih h
      · rename_i hfit hcond
        simp only [Option.some.injEq, Prod.mk.injEq] at h
        obtain ⟨rfl, -⟩ := h
        exact ⟨fun h0 => hcond (Or.inl h0), by omega, not_not.mp hfit⟩

/-- What the prompts guarantee about the configuration they let through. -/
theorem configure_some {input : List Int} {cin : Cin} {s : State}
    (h : configure input = some (s, cin)) :
    s.n ≤ 100 ∧ s.m ≤ 100 ∧ s.starting_alive ≠ 0 ∧ s.starting_alive ≤ s.n * s.m ∧
      fitsInt (s.n * s.m) := by
  unfold configure at h
  split at h
  · exact absurd h (by simp)
  · rename_i n cin1 hw
    split at h
    · exact absurd h (by simp)
    · rename_i m cin2 hh
      split at h
      · exact absurd h (by simp)
      · rename_i a cin3 ha
        simp only [Option.some.injEq, Prod.mk.injEq] at h
        obtain ⟨rfl, -⟩ := h
        have := promptStartingAlive_some ha
        exact ⟨promptWidth_some hw, promptHeight_some hh, this.1, this.2.1, this.2.2⟩

/-! ## Clicks -/

theorem guard_of_mapped {a b c : Int} (hb : 0 < b) (hc : 0 < c) (h : (a * c).tdiv b < c) :
    a ≤ b := by
  by_contra hab
  have h1 : b + 1 ≤ a := by omega
  have h2 : (b + 1) * c ≤ a * c := Int.mul_le_mul_of_nonneg_right h1 (by omega)
  have h3 : (b + 1) * c = c * b + c := by ring
  have h4 : 0 ≤ c * b := Int.mul_nonneg (by omega) (by omega)
  have h5 : 0 ≤ a * c := by omega
  rw [Int.tdiv_eq_ediv h5 (by omega)] at h
  have h6 : c ≤ a * c / b := Int.le_ediv_of_mul_le hb (by omega)
  omega

theorem readAt_set_same {α : Type} {v : List α} {k : Int} {a b : α}
    (h : readAt v k = some a) : readAt (v.set k.toNat b) k = some b := by
  unfold readAt at h ⊢
  split at h
  · rename_i hk
    rw [if_pos hk, List.getElem?_set]
    obtain ⟨hlt, -⟩ := List.getElem?_eq_some_iff.mp h
    simp [hlt]
  · simp at h

theorem writeAt_of_readAt {α : Type} {v : List α} {k : Int} {a : α} (b : α)
    (h : readAt v k = some a) : writeAt v k b = some (v.set k.toNat b) := by
  unfold readAt at h
  unfold writeAt
  split at h
  · rename_i hk
    obtain ⟨hlt, -⟩ := List.getElem?_eq_some_iff.mp h
    rw [if_pos ⟨hk, hlt⟩]
  · simp at h

/-! # The claims -/

/-- C1: in the running phase, on a grid of `n × m` cells (`n, m ≥ 1`) stored at
index `x*m + y` with every cell carrying its own coordinates, that has a live
cell and has not reached the cycle limit, one call of `GenerateBoard` is
defined, keeps the layout, counts one more cycle, and cell `(x, y)` is alive
afterwards iff it was alive with 2 or 3 live neighbours or dead with exactly
3, the neighbours being the in-grid cells among the eight around `(x, y)`,
all read from the grid as it was before the call. -/
theorem GenerateBoard_is_conway_step (s : State) (win_h win_w : Int)
    (hn : 1 ≤ s.n) (hm : 1 ≤ s.m) (hst : Stored s.n s.m s.Cells)
    (hrun : s.starting_alive = s.number_alive_clicked) (hend : s.end_game = false)
    (hlive : ∃ c ∈ s.Cells, c.alive = true)
    (hlim : ¬ (s.max_cycles ≠ 0 ∧ s.current_cycles = s.max_cycles)) :
    ∃ s1, GenerateBoard win_h win_w s = some s1 ∧ s1.n = s.n ∧ s1.m = s.m ∧
      Stored s.n s.m s1.Cells ∧ s1.current_cycles = s.current_cycles + 1 ∧
      s1.end_game = false ∧
      ∀ x y : Int, 0 ≤ x → x < s.n → 0 ≤ y → y < s.m →
        (aliveAt s.n s.m s1.Cells x y = true ↔
          (aliveAt s.n s.m s.Cells x y = true ∧
              (conwayCount s.n s.m s.Cells x y = 2 ∨ conwayCount s.n s.m s.Cells x y = 3)) ∨
            (aliveAt s.n s.m s.Cells x y = false ∧ conwayCount s.n s.m s.Cells x y = 3)) := by
  refine ⟨_, GenerateBoard_step win_h win_w hn hm hst hrun hend hlive hlim, rfl, rfl,
    stored_conwayStep (by omega) (by omega) _, rfl, hend, ?_⟩
  intro x y hx0 hxn hy0 hym
  simp only
  rw [aliveAt_conwayStep s.Cells hx0 hxn hy0 hym]
  exact conwayAlive_iff _ _ _ _ _

/-- C1 at the running 5 × 5 blinker. -/
theorem GenerateBoard_is_conway_step_witness :
    ∃ s1, GenerateBoard 900 900 blinkerState = some s1 ∧ s1.n = 5 ∧ s1.m = 5 ∧
      Stored 5 5 s1.Cells ∧ s1.current_cycles = 0 + 1 ∧ s1.end_game = false ∧
      ∀ x y : Int, 0 ≤ x → x < 5 → 0 ≤ y → y < 5 →
        (aliveAt 5 5 s1.Cells x y = true ↔
          (aliveAt 5 5 blinkerState.Cells x y = true ∧
              (conwayCount 5 5 blinkerState.Cells x y = 2 ∨
                conwayCount 5 5 blinkerState.Cells x y = 3)) ∨
            (aliveAt 5 5 blinkerState.Cells x y = false ∧
              conwayCount 5 5 blinkerState.Cells x y = 3)) :=
  GenerateBoard_is_conway_step blinkerState 900 900 (by decide) (by decide)
    ((stored_iff (by decide) (by decide)).mpr (by decide))
    (by decide) (by decide) ⟨⟨2, 2, true⟩, by decide, rfl⟩ (by decide)

/-- C2: on a running 5 × 5 grid whose live cells are exactly `(1,2)`, `(2,2)`,
`(3,2)`, with the cycle limit not met at either call, one call of
`GenerateBoard` leaves exactly `(2,1)`, `(2,2)`, `(2,3)` alive and a second
call leaves exactly `(1,2)`, `(2,2)`, `(3,2)` alive again. -/
theorem blinker_period_two (s : State) (win1 win2 : Int × Int)
    (hn : s.n = 5) (hm : s.m = 5)
    (hcells : s.Cells = gridWith 5 5 [(1, 2), (2, 2), (3, 2)])
    (hrun : s.starting_alive = s.number_alive_clicked) (hend : s.end_game = false)
    (hlim1 : ¬ (s.max_cycles ≠ 0 ∧ s.current_cycles = s.max_cycles))
    (hlim2 : ¬ (s.max_cycles ≠ 0 ∧ s.current_cycles + 1 = s.max_cycles)) :
    ∃ s1 s2, GenerateBoard win1.1 win1.2 s = some s1 ∧
      s1.Cells = gridWith 5 5 [(2, 1), (2, 2), (2, 3)] ∧
      GenerateBoard win2.1 win2.2 s1 = some s2 ∧
      s2.Cells = gridWith 5 5 [(1, 2), (2, 2), (3, 2)] ∧
      s2.current_cycles = s.current_cycles + 2 := by
  have e1 : conwayStep 5 5 (gridWith 5 5 [(1, 2), (2, 2), (3, 2)]) =
      gridWith 5 5 [(2, 1), (2, 2), (2, 3)] := by decide
  have e2 : conwayStep 5 5 (gridWith 5 5 [(2, 1), (2, 2), (2, 3)]) =
      gridWith 5 5 [(1, 2), (2, 2), (3, 2)] := by decide
  have st1 : Stored 5 5 (gridWith 5 5 [(1, 2), (2, 2), (3, 2)]) :=
    (stored_iff (by decide) (by decide)).mpr (by decide)
  have st2 : Stored 5 5 (gridWith 5 5 [(2, 1), (2, 2), (2, 3)]) :=
    (stored_iff (by decide) (by decide)).mpr (by decide)
  have h1 := GenerateBoard_step (s := s) win1.1 win1.2 (by omega) (by omega)
    (by rw [hn, hm, hcells]; exact st1) hrun hend
    ⟨⟨2, 2, true⟩, by rw [hcells]; decide, rfl⟩ hlim1
  rw [hn, hm, hcells, e1] at h1
  have h2 := GenerateBoard_step
    (s := { s with h := win1.1, w := win1.2,
                   Cells := gridWith 5 5 [(2, 1), (2, 2), (2, 3)],
                   current_cycles := s.current_cycles + 1 })
    win2.1 win2.2 (by simp only; omega) (by simp only; omega)
    (by simp only; rw [hn, hm]; exact st2) hrun hend
    ⟨⟨2, 2, true⟩,
      (by decide : (⟨2, 2, true⟩ : Cell) ∈ gridWith 5 5 [(2, 1), (2, 2), (2, 3)]), rfl⟩ hlim2
  simp only at h2
  rw [hn, hm, e2] at h2
  exact ⟨_, _, h1, rfl, h2, rfl, by simp only; ring⟩

/-- C2 at the running blinker without cycle limit. -/
theorem blinker_period_two_witness :
    ∃ s1 s2, GenerateBoard 900 900 blinkerState = some s1 ∧
      s1.Cells = gridWith 5 5 [(2, 1), (2, 2), (2, 3)] ∧
      GenerateBoard 900 900 s1 = some s2 ∧
      s2.Cells = gridWith 5 5 [(1, 2), (2, 2), (3, 2)] ∧
      s2.current_cycles = 0 + 2 :=
  blinker_period_two blinkerState (900, 900) (900, 900) rfl rfl rfl (by decide) (by decide)
    (by decide) (by decide)

/-- C4: with cycle limit `k ≥ 1`, from cycle index 0 in the running phase, on
a well-stored grid whose generations `0..k` all have a live cell: the first
`t ≤ k` calls of `GenerateBoard` leave generation `t` at cycle index `t`
without ending the game; call `k+1` sets `end_game` at cycle index `k`, leaves
generation `k` in place and reports the number of live cells of generation
`k`; after any number of calls the cycle index is at most `k`. -/
theorem cycle_limit_ends_game (s : State) (k : Nat) (hk : 1 ≤ k)
    (hn : 1 ≤ s.n) (hm : 1 ≤ s.m) (hst : Stored s.n s.m s.Cells)
    (hrun : s.starting_alive = s.number_alive_clicked) (hend : s.end_game = false)
    (hcyc : s.current_cycles = 0) (hmax : s.max_cycles = (k : Int))
    (hlive : ∀ i ≤ k, ∃ c ∈ generation s.n s.m s.Cells i, c.alive = true) :
    (∀ wins : List (Int × Int), wins.length ≤ k →
      ∃ st, ticks wins s = some st ∧
        st.Cells = generation s.n s.m s.Cells wins.length ∧
        st.current_cycles = (wins.length : Int) ∧ st.end_game = false ∧
        st.cout = s.cout) ∧
    (∀ wins : List (Int × Int), wins.length = k + 1 →
      ∃ st, ticks wins s = some st ∧
        st.Cells = generation s.n s.m s.Cells k ∧
        st.current_cycles = (k : Int) ∧ st.end_game = true ∧
        st.cout = s.cout ++ [Output.maxCycles (k : Int)
          (((generation s.n s.m s.Cells k).countP fun c => c.alive : Nat) : Int)]) ∧
    (∀ wins : List (Int × Int),
      ∃ st, ticks wins s = some st ∧ st.current_cycles ≤ (k : Int)) := by
  have run := fun wins => ticks_run s.n s.m hn hm s.Cells k hk hlive wins s 0 (Nat.zero_le k)
    rfl rfl rfl hst (by simpa using hcyc) hmax hrun hend
  refine ⟨?_, ?_, ?_⟩
  · intro wins hle
    obtain ⟨st, h, a1, -⟩ := run wins
    have := a1 (by omega)
    rw [Nat.zero_add] at this
    exact ⟨st, h, this⟩
  · intro wins hlen
    obtain ⟨st, h, -, a2⟩ := run wins
    exact ⟨st, h, a2 (by omega)⟩
  · intro wins
    obtain ⟨st, h, a1, a2⟩ := run wins
    refine ⟨st, h, ?_⟩
    by_cases hle : 0 + wins.length ≤ k
    · rw [(a1 hle).2.1]
      exact_mod_cast hle
    · rw [(a2 (by omega)).2.1]

/-- C4 at the blinker with the cycle limit 5. -/
theorem cycle_limit_ends_game_witness :
    (∀ wins : List (Int × Int), wins.length ≤ 5 →
      ∃ st, ticks wins limitedState = some st ∧
        st.Cells = generation 5 5 limitedState.Cells wins.length ∧
        st.current_cycles = (wins.length : Int) ∧ st.end_game = false ∧
        st.cout = []) ∧
    (∀ wins : List (Int × Int), wins.length = 5 + 1 →
      ∃ st, ticks wins limitedState = some st ∧
        st.Cells = generation 5 5 limitedState.Cells 5 ∧
        st.current_cycles = ((5 : Nat) : Int) ∧ st.end_game = true ∧
        st.cout = [] ++ [Output.maxCycles ((5 : Nat) : Int)
          (((generation 5 5 limitedState.Cells 5).countP fun c => c.alive : Nat) : Int)]) ∧
    (∀ wins : List (Int × Int),
      ∃ st, ticks wins limitedState = some st ∧ st.current_cycles ≤ ((5 : Nat) : Int)) :=
  cycle_limit_ends_game limitedState 5 (by decide) (by decide) (by decide)
    ((stored_iff (by decide) (by decide)).mpr (by decide)) (by decide) (by decide)
    (by decide) (by decide)
    (fun i hi => ⟨⟨2, 2, true⟩, by interval_cases i <;> decide, rfl⟩)

/-- C5: in the running phase, on a grid without live cells, one call of
`GenerateBoard` sets `end_game`, reports the extinction at the current cycle
index, and leaves the cycle index and every cell as they were, whatever
`max_cycles` is. -/
theorem extinction_ends_game (s : State) (win_h win_w : Int)
    (hn : 1 ≤ s.n) (hm : 1 ≤ s.m) (hlen : s.Cells.length = (s.n * s.m).toNat)
    (hrun : s.starting_alive = s.number_alive_clicked) (hend : s.end_game = false)
    (hdead : ∀ c ∈ s.Cells, c.alive = false) :
    ∃ s1, GenerateBoard win_h win_w s = some s1 ∧ s1.end_game = true ∧
      s1.cout = s.cout ++ [Output.extinct s.current_cycles] ∧
      s1.current_cycles = s.current_cycles ∧ s1.Cells = s.Cells :=
  ⟨_, GenerateBoard_extinct win_h win_w hn hm hlen hrun hend hdead, rfl, rfl, rfl, rfl⟩

/-- C5 at the 3 × 3 all-dead grid at cycle 0, with a cycle limit set. -/
theorem extinction_ends_game_witness :
    ∃ s1, GenerateBoard 900 900 deadState = some s1 ∧ s1.end_game = true ∧
      s1.cout = [] ++ [Output.extinct 0] ∧ s1.current_cycles = 0 ∧
      s1.Cells = buildCells 3 3 :=
  extinction_ends_game deadState 900 900 (by decide) (by decide) (by decide) (by decide)
    (by decide) (by decide)

/-- C9: once `end_game` is set, a call of `GenerateBoard` leaves every cell,
`current_cycles`, `number_alive_clicked` and `end_game` as they were, and so
does any sequence of calls. -/
theorem ended_is_terminal (s : State) (hn : 1 ≤ s.n) (hm : 1 ≤ s.m)
    (hlen : s.Cells.length = (s.n * s.m).toNat) (hend : s.end_game = true) :
    (∀ win_h win_w : Int, ∃ s1, GenerateBoard win_h win_w s = some s1 ∧
      s1.Cells = s.Cells ∧ s1.current_cycles = s.current_cycles ∧
      s1.number_alive_clicked = s.number_alive_clicked ∧ s1.end_game = true ∧
      s1.cout = s.cout) ∧
    (∀ wins : List (Int × Int), ∃ s1, ticks wins s = some s1 ∧
      s1.Cells = s.Cells ∧ s1.current_cycles = s.current_cycles ∧
      s1.number_alive_clicked = s.number_alive_clicked ∧ s1.end_game = true ∧
      s1.cout = s.cout) := by
  constructor
  · intro win_h win_w
    exact ⟨_, GenerateBoard_idle win_h win_w hn hm hlen (by rw [hend]; simp),
      rfl, rfl, rfl, hend, rfl⟩
  · intro wins
    obtain ⟨s1, h, -, -, -, e4, -, e6, e7, e8, e9⟩ := ticks_ended wins s hn hm hlen hend
    exact ⟨s1, h, e7, e4, e6, e8, e9⟩

/-- C9 at the blinker game ended at cycle 5. -/
theorem ended_is_terminal_witness :
    (∀ win_h win_w : Int, ∃ s1, GenerateBoard win_h win_w endedState = some s1 ∧
      s1.Cells = endedState.Cells ∧ s1.current_cycles = 5 ∧
      s1.number_alive_clicked = 3 ∧ s1.end_game = true ∧
      s1.cout = [Output.maxCycles 5 3]) ∧
    (∀ wins : List (Int × Int), ∃ s1, ticks wins endedState = some s1 ∧
      s1.Cells = endedState.Cells ∧ s1.current_cycles = 5 ∧
      s1.number_alive_clicked = 3 ∧ s1.end_game = true ∧
      s1.cout = [Output.maxCycles 5 3]) :=
  ended_is_terminal endedState (by decide) (by decide) (by decide) (by decide)

/-- C10: for `1 ≤ n, m ≤ 100`, the grid built by `main` has `n*m` dead cells
stored with their coordinates; from any state with these dimensions whose
vector carries the coordinates `main` gave it (whatever cells are alive),
every sequence of calls of `GenerateBoard` is defined, that is no read or
write of `Cell::getState` and of the loops of `GenerateBoard` leaves
`[0, n*m)`, and afterwards the vector still has `n*m` cells and the cell at
index `k` has `xCoord*m + yCoord = k`, `0 ≤ xCoord < n`, `0 ≤ yCoord < m`. -/
theorem engine_stays_in_grid (n m : Int) (hn1 : 1 ≤ n) (_hn : n ≤ 100) (hm1 : 1 ≤ m)
    (_hm : m ≤ 100) :
    ((buildCells n m).length = (n * m).toNat ∧ (∀ c ∈ buildCells n m, c.alive = false) ∧
      ∀ i j : Int, 0 ≤ i → i < n → 0 ≤ j → j < m →
        readAt (buildCells n m) (i * m + j) = some { xCoord := i, yCoord := j, alive := false }) ∧
    ∀ s : State, s.n = n → s.m = m →
      s.Cells.map coords = (buildCells n m).map coords →
      ∀ wins : List (Int × Int), ∃ s1, ticks wins s = some s1 ∧ s1.n = n ∧ s1.m = m ∧
        s1.Cells.length = (n * m).toNat ∧
        ∀ (k : Int) (c : Cell), readAt s1.Cells k = some c →
          c.xCoord * m + c.yCoord = k ∧ 0 ≤ c.xCoord ∧ c.xCoord < n ∧
            0 ≤ c.yCoord ∧ c.yCoord < m := by
  have hb := stored_buildCells (n := n) (m := m) (by omega) (by omega)
  refine ⟨⟨hb.1, ?_, ?_⟩, ?_⟩
  · intro c hc
    rw [buildCells_eq] at hc
    obtain ⟨p, -, rfl⟩ := List.mem_map.mp hc
    rfl
  · intro i j hi0 hin hj0 hjm
    rw [buildCells_eq, readAt_map, readAt_gridLoop hi0 hin hj0 hjm]
    rfl
  · intro s hsn hsm hcells wins
    have hst : Stored s.n s.m s.Cells := by
      rw [hsn, hsm, stored_iff (by omega) (by omega), hcells]
      exact (stored_iff (by omega) (by omega)).mp hb
    obtain ⟨s1, h, e1, e2, hst1⟩ := ticks_stored wins s (by omega) (by omega) hst
    rw [hsn, hsm] at hst1
    exact ⟨s1, h, by omega, by omega, hst1.1,
      fun k c hc => hst1.index (by omega) (by omega) hc⟩

/-- C10 for the 5 × 5 grid. -/
theorem engine_stays_in_grid_witness :
    ((buildCells 5 5).length = ((5 : Int) * 5).toNat ∧
      (∀ c ∈ buildCells 5 5, c.alive = false) ∧
      ∀ i j : Int, 0 ≤ i → i < 5 → 0 ≤ j → j < 5 →
        readAt (buildCells 5 5) (i * 5 + j) = some { xCoord := i, yCoord := j, alive := false }) ∧
    ∀ s : State, s.n = 5 → s.m = 5 →
      s.Cells.map coords = (buildCells 5 5).map coords →
      ∀ wins : List (Int × Int), ∃ s1, ticks wins s = some s1 ∧ s1.n = 5 ∧ s1.m = 5 ∧
        s1.Cells.length = ((5 : Int) * 5).toNat ∧
        ∀ (k : Int) (c : Cell), readAt s1.Cells k = some c →
          c.xCoord * 5 + c.yCoord = k ∧ 0 ≤ c.xCoord ∧ c.xCoord < 5 ∧
            0 ≤ c.yCoord ∧ c.yCoord < 5 :=
  engine_stays_in_grid 5 5 (by decide) (by decide) (by decide) (by decide)

/-- C3: for `n, m ≥ 2` the positions that pass the guards of `Cell::getState`
number exactly 3 around the corner `(0,0)` and exactly 5 around every border
cell that is not a corner; and on a grid of `n*m` cells that are all alive,
`Cell::getState` counts 3 live neighbours at that corner and 5 at such a
border cell. -/
theorem border_neighbour_counts (n m : Int) (hn : 2 ≤ n) (hm : 2 ≤ m) :
    ((inspected n m 0 0).length = 3 ∧
      ∀ x y : Int, 0 ≤ x → x < n → 0 ≤ y → y < m →
        (x = 0 ∨ x = n - 1 ∨ y = 0 ∨ y = m - 1) →
        ¬ ((x = 0 ∨ x = n - 1) ∧ (y = 0 ∨ y = m - 1)) →
        (inspected n m x y).length = 5) ∧
    ∀ Cells : List Cell, Cells.length = (n * m).toNat → (∀ c ∈ Cells, c.alive = true) →
      liveNeighbours n m Cells 0 0 = some 3 ∧
      ∀ x y : Int, 0 ≤ x → x < n → 0 ≤ y → y < m →
        (x = 0 ∨ x = n - 1 ∨ y = 0 ∨ y = m - 1) →
        ¬ ((x = 0 ∨ x = n - 1) ∧ (y = 0 ∨ y = m - 1)) →
        liveNeighbours n m Cells x y = some 5 := by
  refine ⟨⟨inspected_corner n m hn hm, fun x y hx0 hxn hy0 hym hb hc =>
    inspected_border n m x y hn hm hx0 hxn hy0 hym hb hc⟩, ?_⟩
  intro Cells hlen hall
  constructor
  · rw [liveNeighbours_all_alive hlen hall, inspected_corner n m hn hm]
    rfl
  · intro x y hx0 hxn hy0 hym hb hc
    rw [liveNeighbours_all_alive hlen hall, inspected_border n m x y hn hm hx0 hxn hy0 hym hb hc]
    rfl

/-- C3 on the 2 × 3 grid. -/
theorem border_neighbour_counts_witness :
    ((inspected 2 3 0 0).length = 3 ∧
      ∀ x y : Int, 0 ≤ x → x < 2 → 0 ≤ y → y < 3 →
        (x = 0 ∨ x = 2 - 1 ∨ y = 0 ∨ y = 3 - 1) →
        ¬ ((x = 0 ∨ x = 2 - 1) ∧ (y = 0 ∨ y = 3 - 1)) →
        (inspected 2 3 x y).length = 5) ∧
    ∀ Cells : List Cell, Cells.length = ((2 : Int) * 3).toNat →
      (∀ c ∈ Cells, c.alive = true) →
      liveNeighbours 2 3 Cells 0 0 = some 3 ∧
      ∀ x y : Int, 0 ≤ x → x < 2 → 0 ≤ y → y < 3 →
        (x = 0 ∨ x = 2 - 1 ∨ y = 0 ∨ y = 3 - 1) →
        ¬ ((x = 0 ∨ x = 2 - 1) ∧ (y = 0 ∨ y = 3 - 1)) →
        liveNeighbours 2 3 Cells x y = some 5 :=
  border_neighbour_counts 2 3 (by decide) (by decide)

/-- C6: in the placement phase, with a window of positive size and a vector
of `n*m` cells, a left-button-down click that maps to the dead in-grid cell
`(cx, cy)` makes that cell alive and adds exactly 1 to
`number_alive_clicked`; a second such click mapping to the same cell then
leaves the whole state, grid and count included, as it is. -/
theorem double_click_counts_once (s : State) (x1 y1 x2 y2 cx cy : Int)
    (hw : 0 < s.w) (hh : 0 < s.h) (hlen : s.Cells.length = (s.n * s.m).toNat)
    (hplace : s.starting_alive > s.number_alive_clicked)
    (hcx : 0 ≤ cx ∧ cx < s.n) (hcy : 0 ≤ cy ∧ cy < s.m)
    (hmap1 : (x1 * s.n).tdiv s.w = cx ∧ ((s.h - y1) * s.m).tdiv s.h = cy)
    (hmap2 : (x2 * s.n).tdiv s.w = cx ∧ ((s.h - y2) * s.m).tdiv s.h = cy)
    (hdead : aliveAt s.n s.m s.Cells cx cy = false) :
    ∃ s1, mouse_click GLUT_LEFT_BUTTON GLUT_DOWN x1 y1 s = some s1 ∧
      s1.number_alive_clicked = s.number_alive_clicked + 1 ∧
      aliveAt s.n s.m s1.Cells cx cy = true ∧
      mouse_click GLUT_LEFT_BUTTON GLUT_DOWN x2 y2 s1 = some s1 := by
  obtain ⟨c, hc⟩ := readAt_of_length hlen hcx.1 hcx.2 hcy.1 hcy.2
  have hca : c.alive = false := by
    rw [← aliveAt_of_read hcx.1 hcx.2 hcy.1 hcy.2 hc]; exact hdead
  have hg1 : x1 ≤ s.w ∧ s.h - y1 ≤ s.h :=
    ⟨guard_of_mapped (a := x1) (b := s.w) (c := s.n) hw (by omega)
        (by rw [hmap1.1]; exact hcx.2),
      guard_of_mapped (a := s.h - y1) (b := s.h) (c := s.m) hh (by omega)
        (by rw [hmap1.2]; exact hcy.2)⟩
  have hg2 : x2 ≤ s.w ∧ s.h - y2 ≤ s.h :=
    ⟨guard_of_mapped (a := x2) (b := s.w) (c := s.n) hw (by omega)
        (by rw [hmap2.1]; exact hcx.2),
      guard_of_mapped (a := s.h - y2) (b := s.h) (c := s.m) hh (by omega)
        (by rw [hmap2.2]; exact hcy.2)⟩
  have hi1 : clickIndex s x1 y1 = cx * s.m + cy := by
    unfold clickIndex; rw [hmap1.1, hmap1.2]
  have hzero : ¬ (s.w = 0 ∨ s.h = 0) := by omega
  have hfirst : mouse_click GLUT_LEFT_BUTTON GLUT_DOWN x1 y1 s =
      some { s with
        Cells := s.Cells.set (cx * s.m + cy).toNat { c with alive := true },
        number_alive_clicked := s.number_alive_clicked + 1,
        cout := s.cout ++
          [Output.remaining (s.starting_alive - (s.number_alive_clicked + 1))] } := by
    unfold mouse_click
    rw [if_pos ⟨rfl, rfl, hplace⟩, if_pos hg1, if_neg hzero, hi1, hc]
    simp only
    rw [if_pos hca, writeAt_of_readAt _ hc]
  refine ⟨_, hfirst, rfl, ?_, ?_⟩
  · simp only
    rw [aliveAt_of_read hcx.1 hcx.2 hcy.1 hcy.2 (readAt_set_same hc)]
  · unfold mouse_click
    simp only
    by_cases hstill : s.starting_alive > s.number_alive_clicked + 1
    · have hi2 : clickIndex
          { s with
            Cells := s.Cells.set (cx * s.m + cy).toNat { c with alive := true },
            number_alive_clicked := s.number_alive_clicked + 1,
            cout := s.cout ++
              [Output.remaining (s.starting_alive - (s.number_alive_clicked + 1))] }
          x2 y2 = cx * s.m + cy := by
        unfold clickIndex; simp only; rw [hmap2.1, hmap2.2]
      rw [if_pos ⟨trivial, trivial, hstill⟩, if_pos hg2, if_neg hzero, hi2,
        readAt_set_same hc]
      simp
    · rw [if_neg (by rintro ⟨-, -, h⟩; exact hstill h)]

/-- C6 on the 3 × 3 game with one cell to place: two clicks in the middle of
the window. -/
theorem double_click_counts_once_witness :
    ∃ s1, mouse_click GLUT_LEFT_BUTTON GLUT_DOWN 450 450 placingState = some s1 ∧
      s1.number_alive_clicked = 0 + 1 ∧
      aliveAt 3 3 s1.Cells 1 1 = true ∧
      mouse_click GLUT_LEFT_BUTTON GLUT_DOWN 500 400 s1 = some s1 :=
  double_click_counts_once placingState 450 450 500 400 1 1 (by decide) (by decide)
    (by decide) (by decide) (by decide) (by decide) (by decide) (by decide) (by decide)

/-- C7, as the code has it: for a width, a height, a number of starting
alive cells and a number of cycles that each fit the 32-bit `int`, with a
product width × height that fits too, the prompts let the configuration
through iff width ≤ 100, height ≤ 100, the number of starting alive cells is
not 0 and is at most width × height; the number of cycles is not checked. -/
theorem accepts_iff (width height target cycles : Int)
    (hwidth : fitsInt width) (hheight : fitsInt height) (htarget : fitsInt target)
    (hcycles : fitsInt cycles) (hfit : fitsInt (width * height)) :
    accepts width height target cycles = true ↔
      width ≤ 100 ∧ height ≤ 100 ∧ target ≠ 0 ∧ target ≤ width * height := by
  constructor
  · intro h
    unfold accepts at h
    split at h
    · exact absurd h (by decide)
    · rename_i s rest hconf
      simp only [decide_eq_true_eq] at h
      obtain ⟨e1, e2, e3, -, -⟩ := h
      have := configure_some hconf
      rw [e1, e2, e3] at this
      exact ⟨this.1, this.2.1, this.2.2.1, this.2.2.2.1⟩
  · rintro ⟨h1, h2, h3, h4⟩
    have c1 : ¬ width > 100 := by omega
    have c2 : ¬ height > 100 := by omega
    have c3 : ¬ (target = 0 ∨ target > width * height) := by omega
    simp [accepts, configure, promptWidth, promptHeight, promptStartingAlive, promptMaxCycles,
      c1, c2, c3, hfit, hwidth, hheight, htarget, hcycles]

/-- C7, as the code has it, on a 3 × 3 grid with 1 starting cell. -/
theorem accepts_iff_witness :
    accepts 3 3 1 0 = true ↔ (3 : Int) ≤ 100 ∧ (3 : Int) ≤ 100 ∧ (1 : Int) ≠ 0 ∧ (1 : Int) ≤ 3 * 3 :=
  accepts_iff 3 3 1 0 (by decide) (by decide) (by decide) (by decide) (by decide)

/-- C7 fails as stated: the width 0, the height -5, the target -1 and the
cycle count -3 pass the prompts, although none of them is in the stated
range. -/
theorem accepts_out_of_range :
    ¬ (accepts 0 (-5) (-1) (-3) = true ↔
      (0 < (0 : Int) ∧ (0 : Int) ≤ 100 ∧ 0 < (-5 : Int) ∧ (-5 : Int) ≤ 100 ∧
        1 ≤ (-1 : Int) ∧ (-1 : Int) ≤ 0 * -5 ∧ 0 ≤ (-3 : Int))) := by
  decide

/-- C8 fails on the code: on the 3 × 3 game that `main` sets up in a
900 × 900 window, the click at pixel `(0, 0)` maps to the row `3 = m`,
outside the grid, yet passes the guard of line 227; it makes the cell
`(1, 0)` at index `0*3 + 3` alive and counts it.  The click at pixel
`(900, 450)` maps to the column `3 = n` and reads index `10 > 3*3 - 1`. -/
theorem edge_click_not_ignored :
    configure [3, 3, 1, 0] = some (placingState, { input := [], failbit := false }) ∧
    ((0 * placingState.n).tdiv placingState.w = 0 ∧
      ((placingState.h - 0) * placingState.m).tdiv placingState.h = 3) ∧
    mouse_click GLUT_LEFT_BUTTON GLUT_DOWN 0 0 placingState =
      some { placingState with
        Cells := gridWith 3 3 [(1, 0)], number_alive_clicked := 1,
        cout := [Output.remaining 0] } ∧
    clickIndex placingState 900 450 = 10 ∧
    mouse_click GLUT_LEFT_BUTTON GLUT_DOWN 900 450 placingState = none := by
  decide

end GameOfLife
